import Mathlib

/-!
Shallow embedding of the `casino-simulator` roulette engine
(`casino_simulator/gameObjects.py` and `casino_simulator/roulette/gameObjects.py`).

Python `Fraction` values are modelled as `ℚ`, Python `int` as `ℤ` (or `ℕ` for
loop indices that are always non-negative), raised exceptions as `Except`/`Option`,
and the two random sources as explicit streams `ℕ → ℕ` together with a cursor
that each draw advances:
  * the wheel's injected source `rng` (used only by `Wheel.next`), and
  * the process-global `random` module (used by `Wheel.get_random_outcome`
    via `random.choice` and by `Passenger57.make_bet` via `random.randint`).
-/

set_option maxRecDepth 100000

namespace Casino

/-- Python `int(q)` on a `fractions.Fraction`: truncation toward zero. -/
def pyInt (q : ℚ) : ℤ := q.num.tdiv q.den

/-- Model of `random.randint(a, b)` driven by a deterministic draw `g`:
an element of `[a, b]` selected by the draw (for `a ≤ b` the result is
`a + (g mod (b - a + 1))`). -/
def randint (a b : ℤ) (g : ℕ) : ℤ := a + (g : ℤ) % (b - a + 1)

/-- Python value passed as the `odds` argument of `Outcome.__init__`:
either a `fractions.Fraction` or some non-`Fraction` value (an `int`,
a `str`, ...).  `Outcome.__init__` checks `isinstance(odds, Fraction)`. -/
inductive PyVal where
  | frac (q : ℚ)
  | int (n : ℤ)
  | str (s : String)
deriving DecidableEq, Repr

/-- An `Outcome` (gameObjects.py): a name and rational odds.  Python equality
and hashing are by `name` only. -/
structure Outcome where
  name : String
  odds : ℚ
deriving DecidableEq, Repr

/-- Payout of an outcome: `odds * amount` (`Outcome.win_amount`). -/
def Outcome.winAmount (oc : Outcome) (amount : ℚ) : ℚ := oc.odds * amount

/-- Model of `Outcome.__init__(name, odds)`: raises `InvalidObjectError`
(here `Except.error ()`) unless `odds` is a `Fraction`; no other check is
performed on `odds`. -/
def outcomeInit (name : String) (odds : PyVal) : Except Unit Outcome :=
  match odds with
  | .frac q => .ok ⟨name, q⟩
  | _ => .error ()

/-- The `OutcomeFactory` cache (`outcomes` dict), as an insertion-ordered
association list from names to odds. -/
structure OutcomeFactory where
  outcomes : List (String × ℚ)
deriving DecidableEq, Repr

/-- Model of `OutcomeFactory.make(name, odds)`: on a cache hit returns the
cached outcome (the `odds` argument is ignored); otherwise constructs
`Outcome(name, Fraction(odds))`, caches and returns it. -/
def OutcomeFactory.make (f : OutcomeFactory) (name : String) (odds : ℚ) :
    Outcome × OutcomeFactory :=
  match f.outcomes.lookup name with
  | some q => (⟨name, q⟩, f)
  | none => (⟨name, odds⟩, ⟨f.outcomes ++ [(name, odds)]⟩)

/-- A `Bet` of an integer amount on one outcome. -/
structure Bet where
  amount : ℤ
  outcome : Outcome
deriving DecidableEq, Repr

/-- Amount won by a bet: `outcome.win_amount(amount) + amount` (`Bet.win_amount`). -/
def Bet.winAmount (b : Bet) : ℚ := b.outcome.winAmount (b.amount : ℚ) + (b.amount : ℚ)

/-- Amount lost by a bet (`Bet.lose_amount`). -/
def Bet.loseAmount (b : Bet) : ℤ := b.amount

/-- A wheel `Bin`: its number and the `frozenset` of attached outcomes.
Since `Outcome.__eq__`/`__hash__` only look at the name, the set is a set of
outcome names, modelled as a duplicate-free list in insertion order. -/
structure Bin where
  number : ℕ
  outcomes : List String
deriving DecidableEq, Repr

/-- Model of `Bin.add`: insert the outcome into the frozenset (no-op when an
outcome of the same name is already present). -/
def Bin.add (b : Bin) (name : String) : Bin :=
  if name ∈ b.outcomes then b else ⟨b.number, b.outcomes ++ [name]⟩

/-- A `Wheel`: 38 bins (indices 0-37, 37 being the `00` pocket) and the set of
all outcomes ever added (deduplicated by name, in insertion order). -/
structure Wheel where
  bins : List Bin
  outcomes : List Outcome
deriving DecidableEq, Repr

/-- Model of `Wheel.add_outcome(number, outcome)`: for `0 ≤ number ≤ 37` adds
the outcome to the bin with that number and records it in the wheel's outcome
set; otherwise does nothing (the Python code returns `NotImplemented`). -/
def Wheel.addOutcome (w : Wheel) (n : ℕ) (oc : Outcome) : Wheel :=
  if n ≤ 37 then
    { bins := w.bins.set n ((w.bins.getD n ⟨0, []⟩).add oc.name)
      outcomes :=
        if w.outcomes.any (fun o => o.name == oc.name) then w.outcomes
        else w.outcomes ++ [oc] }
  else w

/-- Model of `Wheel.get_outcome(name)`: linear search over the outcome set;
the Python `False` sentinel for "not found" becomes `none`. -/
def Wheel.getOutcome (w : Wheel) (name : String) : Option Outcome :=
  w.outcomes.find? (fun oc => oc.name == name)

/-- Model of `Wheel.get_random_outcome()`: `random.choice(list(self.outcomes))`,
a pick from the process-global stream `glob` (not the injected source).
Python's set iteration order is unspecified; the model fixes first-insertion
order, which the draw index selects into.  Returns the chosen outcome and
the advanced global cursor. -/
def Wheel.getRandomOutcome (w : Wheel) (glob : ℕ → ℕ) (g : ℕ) : Outcome × ℕ :=
  (w.outcomes.getD (glob g % w.outcomes.length) ⟨"", 0⟩, g + 1)

/-- Model of `Wheel.next()`: `self.rng.choice([num for num in range(38)])` —
one draw from the injected stream selects one of the 38 bins.  Returns the
winning bin and the advanced injected cursor. -/
def Wheel.next (w : Wheel) (inj : ℕ → ℕ) (i : ℕ) : Bin × ℕ :=
  (w.bins.getD (inj i % 38) ⟨0, []⟩, i + 1)

/-! ### BinBuilder

`BinBuilder.build_bins` resets the wheel to 38 empty bins and then runs every
`generate_*` method.  `inspect.getmembers` returns the methods sorted by name,
so the generators run in alphabetical order; each threads the shared
`OutcomeFactory`. -/

/-- Model of `BinBuilder.generate_column_bets`. -/
def genColumnBets (wf : Wheel × OutcomeFactory) : Wheel × OutcomeFactory :=
  (List.range 3).foldl (fun wf c =>
    let (oc, f) := wf.2.make ("Column " ++ toString (c + 1)) 2
    let w := (List.range 12).foldl
      (fun w r => w.addOutcome (3 * r + c + 1) oc) wf.1
    (w, f)) wf

/-- Model of `BinBuilder.generate_corner_bets`. -/
def genCornerBets (wf : Wheel × OutcomeFactory) : Wheel × OutcomeFactory :=
  [1, 2].foldl (fun wf col =>
    (List.range 11).foldl (fun wf r =>
      let n := 3 * r + col
      let nm := "Corner " ++ toString n ++ "-" ++ toString (n + 1) ++ "-" ++
        toString (n + 3) ++ "-" ++ toString (n + 4)
      let (oc, f) := wf.2.make nm 8
      let w := [0, 1, 3, 4].foldl (fun w i => w.addOutcome (n + i) oc) wf.1
      (w, f)) wf) wf

/-- Model of `BinBuilder.generate_dozen_bets`. -/
def genDozenBets (wf : Wheel × OutcomeFactory) : Wheel × OutcomeFactory :=
  (List.range 3).foldl (fun wf d =>
    let (oc, f) := wf.2.make ("Dozen " ++ toString (d + 1)) 2
    let w := (List.range 12).foldl
      (fun w n => w.addOutcome (12 * d + n + 1) oc) wf.1
    (w, f)) wf

/-- The red-number list hard-coded in `generate_even_money_bets` (note: it has
17 entries; the standard red set would also contain 27). -/
def codeRedNumbers : List ℕ :=
  [1, 3, 5, 7, 9, 12, 14, 16, 18, 19, 21, 23, 25, 30, 32, 34, 36]

/-- Model of `BinBuilder.generate_even_money_bets`. -/
def genEvenMoneyBets (wf : Wheel × OutcomeFactory) : Wheel × OutcomeFactory :=
  let (red, f) := wf.2.make "Red" 1
  let (black, f) := f.make "Black" 1
  let (even, f) := f.make "Even" 1
  let (odd, f) := f.make "Odd" 1
  let (high, f) := f.make "High" 1
  let (low, f) := f.make "Low" 1
  let w := (List.range 36).foldl (fun w k =>
    let n := k + 1
    let w := if n < 19 then w.addOutcome n low else w.addOutcome n high
    let w := if n % 2 = 1 then w.addOutcome n odd else w.addOutcome n even
    if n ∈ codeRedNumbers then w.addOutcome n red else w.addOutcome n black) wf.1
  (w, f)

/-- Model of `BinBuilder.generate_left_right_split_bets`. -/
def genLeftRightSplitBets (wf : Wheel × OutcomeFactory) : Wheel × OutcomeFactory :=
  [1, 2].foldl (fun wf c =>
    (List.range 12).foldl (fun wf r =>
      let n := 3 * r + c
      let (oc, f) := wf.2.make
        ("Split " ++ toString n ++ "-" ++ toString (n + 1)) 17
      let w := (wf.1.addOutcome n oc).addOutcome (n + 1) oc
      (w, f)) wf) wf

/-- Model of `BinBuilder.generate_line_bets`. -/
def genLineBets (wf : Wheel × OutcomeFactory) : Wheel × OutcomeFactory :=
  (List.range 11).foldl (fun wf r =>
    let n := 3 * r + 1
    let nm := "Line " ++ toString n ++ "-" ++ toString (n + 1) ++ "-" ++
      toString (n + 2) ++ "-" ++ toString (n + 3) ++ "-" ++
      toString (n + 4) ++ "-" ++ toString (n + 5)
    let (oc, f) := wf.2.make nm 5
    let w := (List.range 6).foldl (fun w i => w.addOutcome (n + i) oc) wf.1
    (w, f)) wf

/-- Model of `BinBuilder.generate_straight_bets`. -/
def genStraightBets (wf : Wheel × OutcomeFactory) : Wheel × OutcomeFactory :=
  let (oc0, f) := wf.2.make "0" 35
  let w := wf.1.addOutcome 0 oc0
  let wf := (List.range 36).foldl (fun wf k =>
    let n := k + 1
    let (oc, f) := wf.2.make (toString n) 35
    (wf.1.addOutcome n oc, f)) (w, f)
  let (oc00, f) := wf.2.make "00" 35
  (wf.1.addOutcome 37 oc00, f)

/-- Model of `BinBuilder.generate_street_bets`. -/
def genStreetBets (wf : Wheel × OutcomeFactory) : Wheel × OutcomeFactory :=
  (List.range 12).foldl (fun wf r =>
    let n := 3 * r + 1
    let nm := "Street " ++ toString n ++ "-" ++ toString (n + 1) ++ "-" ++
      toString (n + 2)
    let (oc, f) := wf.2.make nm 11
    let w := (List.range 3).foldl (fun w i => w.addOutcome (n + i) oc) wf.1
    (w, f)) wf

/-- Model of `BinBuilder.generate_up_down_split_bets`. -/
def genUpDownSplitBets (wf : Wheel × OutcomeFactory) : Wheel × OutcomeFactory :=
  (List.range 33).foldl (fun wf k =>
    let n := k + 1
    let (oc, f) := wf.2.make
      ("Split " ++ toString n ++ "-" ++ toString (n + 3)) 17
    let w := (wf.1.addOutcome n oc).addOutcome (n + 3) oc
    (w, f)) wf

/-- Model of `BinBuilder.generate_zero_bets`. -/
def genZeroBets (wf : Wheel × OutcomeFactory) : Wheel × OutcomeFactory :=
  let (oc, f) := wf.2.make "00-0-1-2-3" 6
  let w := [37, 0, 1, 2, 3].foldl (fun w n => w.addOutcome n oc) wf.1
  (w, f)

/-- Model of `BinBuilder.build_bins`: reset to 38 empty bins, then run all
`generate_*` methods in the alphabetical order produced by
`inspect.getmembers`. -/
def buildBins (wf : Wheel × OutcomeFactory) : Wheel × OutcomeFactory :=
  let w := { wf.1 with bins := (List.range 38).map (fun n => ⟨n, []⟩) }
  genZeroBets (genUpDownSplitBets (genStreetBets (genStraightBets
    (genLineBets (genLeftRightSplitBets (genEvenMoneyBets (genDozenBets
      (genCornerBets (genColumnBets (w, wf.2))))))))))

/-- A freshly constructed `Wheel()` in a fresh process: empty outcome set and
empty factory cache, then `build_components` runs the builder. -/
def buildWheel : Wheel := (buildBins (⟨[], []⟩, ⟨[]⟩)).1

/-- Outcome-name set of bin `n` of a wheel. -/
def binOutcomes (w : Wheel) (n : ℕ) : List String := (w.bins.getD n ⟨0, []⟩).outcomes

/-! ### Table -/

/-- A roulette `Table`: house limits and the ordered list of placed bets
(`RouletteTable`; the wheel it owns is passed separately). -/
structure Table where
  min : ℤ
  max : ℤ
  bets : List Bet
deriving DecidableEq, Repr

/-- Running total of the amounts of a list of bets (the `for current in self`
loop inside `RouletteTable.is_valid`). -/
def betTotal (bets : List Bet) : ℤ := bets.foldl (fun acc b => acc + b.amount) 0

/-- Model of `RouletteTable.is_valid(bet)`: false unless
`max ≥ amount ≥ min`, then true iff `max ≥ running_total + amount`. -/
def Table.isValid (t : Table) (b : Bet) : Bool :=
  if ¬ (t.max ≥ b.amount ∧ b.amount ≥ t.min) then false
  else decide (t.max ≥ betTotal t.bets + b.amount)

/-- Model of `Table.place_bet(bet)`: raises `InvalidBetError` (here
`Except.error ()`) when `is_valid` fails, otherwise appends the bet. -/
def Table.placeBet (t : Table) (b : Bet) : Except Unit Table :=
  if t.isValid b then .ok { t with bets := t.bets ++ [b] } else .error ()

/-- Model of `Table.clear()`. -/
def Table.clear (t : Table) : Table := { t with bets := [] }

/-- A table operation performed by a client: `place_bet` or `clear`. -/
inductive TableOp where
  | place (b : Bet)
  | clear
deriving DecidableEq, Repr

/-- Effect of one table operation on the table state; a `place_bet` that
raises `InvalidBetError` leaves the table unchanged (the exception
propagates, nothing was appended). -/
def applyOp (t : Table) : TableOp → Table
  | .place b =>
    match t.placeBet b with
    | .ok t2 => t2
    | .error _ => t
  | .clear => t.clear

/-- Effect of a sequence of table operations. -/
def applyOps (t : Table) (ops : List TableOp) : Table := ops.foldl applyOp t

/-- The table invariant claimed by the spec: the placed amounts sum to at
most `max` and every placed amount lies in `[min, max]`. -/
def tableInv (t : Table) : Prop :=
  betTotal t.bets ≤ t.max ∧ ∀ b ∈ t.bets, t.min ≤ b.amount ∧ b.amount ≤ t.max

instance (t : Table) : Decidable (tableInv t) :=
  decidable_of_iff
    (betTotal t.bets ≤ t.max ∧ ∀ b ∈ t.bets, t.min ≤ b.amount ∧ b.amount ≤ t.max)
    Iff.rfl

/-! ### Players

`RoulettePlayer` state: `stake` (becomes a `Fraction` after the first win,
hence `ℚ`), remaining `rounds`, and the strategy-specific state —
`Martingale`'s `loss_count` and base `wager`, `Passenger57`'s cached Black
outcome.  Unused fields are simply ignored by the other strategy. -/

/-- The two concrete `RoulettePlayer` strategies. -/
inductive Strategy where
  | passenger57
  | martingale
deriving DecidableEq, Repr

/-- State of a `RoulettePlayer`. -/
structure PlayerState where
  strategy : Strategy
  stake : ℚ
  rounds : ℤ
  lossCount : ℕ
  wager : ℤ
  black : Outcome
deriving DecidableEq, Repr

/-- Model of `make_bet`.
`Passenger57.make_bet`: when the table minimum does not exceed the stake the
amount is `random.randint(table.min, stake)` — one draw from the
process-global stream — else the fixed fallback `50`; the outcome is the
cached Black outcome.
`Martingale.make_bet`: amount `wager * 2 ** loss_count` on an outcome chosen
by `Wheel.get_random_outcome` (one draw from the process-global stream).
Returns the bet and the advanced global cursor. -/
def makeBet (w : Wheel) (t : Table) (p : PlayerState) (glob : ℕ → ℕ) (g : ℕ) :
    Bet × ℕ :=
  match p.strategy with
  | .passenger57 =>
    if ¬ ((t.min : ℚ) > p.stake) then
      (⟨randint t.min (pyInt p.stake) (glob g), p.black⟩, g + 1)
    else (⟨50, p.black⟩, g)
  | .martingale =>
    let (oc, g2) := w.getRandomOutcome glob g
    (⟨p.wager * 2 ^ p.lossCount, oc⟩, g2)

/-- Model of `Player.can_bet(bet)`: false when `bet.amount > stake` or the
table rejects the bet. -/
def canBet (t : Table) (p : PlayerState) (b : Bet) : Bool :=
  !(decide ((b.amount : ℚ) > p.stake)) && t.isValid b

/-- Model of `RoulettePlayer.can_continue()` (also `playing()`): regenerates
a bet via `make_bet` — consuming a global draw — and requires `rounds > 0`
and `can_bet`. -/
def canContinue (w : Wheel) (t : Table) (p : PlayerState) (glob : ℕ → ℕ)
    (g : ℕ) : Bool × ℕ :=
  let (bet, g2) := makeBet w t p glob g
  (decide (p.rounds > 0) && canBet t p bet, g2)

/-- Model of `RoulettePlayer.place_bet()`: decrement `rounds`
unconditionally, regenerate the bet, re-check `can_continue() and
can_bet(bet)`; on failure the bet is silently dropped, on success the stake
is debited and the bet forwarded to the table.  (`Table.place_bet`
re-validates, but `can_bet` has just established `is_valid`, so its
`InvalidBetError` branch cannot fire here and the append happens.) -/
def playerPlaceBet (w : Wheel) (glob : ℕ → ℕ) (p : PlayerState) (t : Table)
    (g : ℕ) : PlayerState × Table × ℕ :=
  let p1 : PlayerState := { p with rounds := p.rounds - 1 }
  let (bet, g1) := makeBet w t p1 glob g
  let (cont, g2) := canContinue w t p1 glob g1
  if cont && canBet t p1 bet then
    ({ p1 with stake := p1.stake - (bet.amount : ℚ) },
      { t with bets := t.bets ++ [bet] }, g2)
  else (p1, t, g2)

/-- Model of `win(bet)`: both strategies credit `bet.win_amount()` to the
stake; `Martingale.win` additionally resets `loss_count` to 0. -/
def playerWin (p : PlayerState) (b : Bet) : PlayerState :=
  match p.strategy with
  | .passenger57 => { p with stake := p.stake + b.winAmount }
  | .martingale => { p with stake := p.stake + b.winAmount, lossCount := 0 }

/-- Model of `lose(bet)`: `Passenger57.lose` changes nothing (it only
prints); `Martingale.lose` increments `loss_count`. -/
def playerLose (p : PlayerState) (b : Bet) : PlayerState :=
  match p.strategy with
  | .passenger57 => p
  | .martingale => { p with lossCount := p.lossCount + 1 }

/-! ### Game and Simulator -/

/-- Resolution loop of `RouletteGame.cycle`: every bet on the table wins if
its outcome is a member of the winning bin's outcome set, loses otherwise. -/
def resolveBets (winNames : List String) (p : PlayerState) (bets : List Bet) :
    PlayerState :=
  bets.foldl
    (fun p bet =>
      if bet.outcome.name ∈ winNames then playerWin p bet else playerLose p bet)
    p

/-- Model of `RouletteGame.cycle(player)`: the player places a bet (possibly
a no-op), the wheel spins to a winning bin via the injected source, every
table bet is resolved, and the table is cleared unconditionally. -/
def cycle (w : Wheel) (glob inj : ℕ → ℕ) (p : PlayerState) (t : Table)
    (g i : ℕ) : PlayerState × Table × ℕ × ℕ :=
  let r := playerPlaceBet w glob p t g
  let s := w.next inj i
  let p2 := resolveBets s.1.outcomes r.1 r.2.1.bets
  (p2, r.2.1.clear, r.2.2, s.2)

/-- Rounds strictly decrease through `cycle`: `place_bet` decrements
unconditionally and bet resolution never touches `rounds`. -/
theorem resolveBets_rounds (ns : List String) (p : PlayerState)
    (bets : List Bet) : (resolveBets ns p bets).rounds = p.rounds := by
  induction bets generalizing p with
  | nil => rfl
  | cons b bs ih =>
    simp only [resolveBets, List.foldl_cons] at *
    rw [ih]
    split <;> simp [playerWin, playerLose] <;> split <;> rfl

theorem cycle_rounds (w : Wheel) (glob inj : ℕ → ℕ) (p : PlayerState)
    (t : Table) (g i : ℕ) :
    (cycle w glob inj p t g i).1.rounds = p.rounds - 1 := by
  simp only [cycle, resolveBets_rounds, playerPlaceBet]
  split <;> rfl

theorem canContinue_rounds_pos (w : Wheel) (t : Table) (p : PlayerState)
    (glob : ℕ → ℕ) (g : ℕ) (h : (canContinue w t p glob g).1 = true) :
    0 < p.rounds := by
  simp only [canContinue, Bool.and_eq_true, decide_eq_true_eq] at h
  exact h.1

theorem canContinue_false_of_nonpos (w : Wheel) (t : Table) (p : PlayerState)
    (glob : ℕ → ℕ) (g : ℕ) (h : p.rounds ≤ 0) :
    (canContinue w t p glob g).1 = false := by
  simp only [canContinue]
  rw [decide_eq_false (by omega : ¬ p.rounds > 0)]
  rfl

/-- Model of the `while self.player.playing()` loop of
`RouletteSimulator.session`: run cycles while the player keeps playing,
recording `int(stake)` after each cycle.  The numeric argument is the loop
variant `rounds.toNat`: every iteration decrements `rounds` by exactly 1
(`cycle_rounds`) while the guard requires `rounds > 0`, so starting from
`fuel = rounds.toNat` the fuel is never the binding constraint
(`sessionLoop_fuel_ge`) and the `0` case coincides with the guard-failure
exit.  Returns the recorded stakes, the final player and table, and both
cursors; the guard evaluation consumes a global draw even when it fails. -/
def sessionLoop (w : Wheel) (glob inj : ℕ → ℕ) :
    ℕ → PlayerState → Table → ℕ → ℕ →
    List ℤ × PlayerState × Table × ℕ × ℕ
  | 0, p, t, g, i => ([], p, t, (canContinue w t p glob g).2, i)
  | fuel + 1, p, t, g, i =>
    if (canContinue w t p glob g).1 then
      let r := cycle w glob inj p t (canContinue w t p glob g).2 i
      let rest := sessionLoop w glob inj fuel r.1 r.2.1 r.2.2.1 r.2.2.2
      (pyInt r.1.stake :: rest.1, rest.2)
    else ([], p, t, (canContinue w t p glob g).2, i)

/-- Fuel irrelevance: any fuel at least `rounds.toNat` gives the same
result, so the loop's exit is always decided by the `playing()` guard and
never by the fuel. -/
theorem sessionLoop_fuel_ge (w : Wheel) (glob inj : ℕ → ℕ) :
    ∀ (f1 f2 : ℕ) (p : PlayerState) (t : Table) (g i : ℕ),
      p.rounds.toNat ≤ f1 → p.rounds.toNat ≤ f2 →
      sessionLoop w glob inj f1 p t g i = sessionLoop w glob inj f2 p t g i := by
  intro f1
  induction f1 with
  | zero =>
    intro f2 p t g i h1 h2
    have hc : (canContinue w t p glob g).1 = false :=
      canContinue_false_of_nonpos w t p glob g (by omega)
    cases f2 with
    | zero => rfl
    | succ f2 => simp [sessionLoop, hc]
  | succ f1 ih =>
    intro f2 p t g i h1 h2
    cases f2 with
    | zero =>
      have hc : (canContinue w t p glob g).1 = false :=
        canContinue_false_of_nonpos w t p glob g (by omega)
      simp [sessionLoop, hc]
    | succ f2 =>
      simp only [sessionLoop]
      cases hc : (canContinue w t p glob g).1 with
      | false => simp
      | true =>
        simp only [if_true]
        have hpos := canContinue_rounds_pos w t p glob g hc
        have hr := cycle_rounds w glob inj p t (canContinue w t p glob g).2 i
        rw [ih f2
          (cycle w glob inj p t (canContinue w t p glob g).2 i).1
          (cycle w glob inj p t (canContinue w t p glob g).2 i).2.1
          (cycle w glob inj p t (canContinue w t p glob g).2 i).2.2.1
          (cycle w glob inj p t (canContinue w t p glob g).2 i).2.2.2
          (by rw [hr]; omega) (by rw [hr]; omega)]

/-- Simulator configuration (the recognized options of §6 of the spec;
`player_class` is the strategy name). -/
structure SimConfig where
  tableMin : ℤ
  tableMax : ℤ
  initDuration : ℤ
  initStake : ℤ
  samples : ℕ
  playerClass : Strategy
deriving DecidableEq, Repr

/-- Model of `RouletteSimulator.create_player`: instantiate the configured
strategy on the table — `Martingale(table)` keeps its default base wager 10,
`Passenger57(table)` caches `wheel.get_outcome('Black')` — then
`set_stake(init_stake)` and `set_rounds(init_duration)`.  (On the built
wheel `get_outcome('Black')` always succeeds; the `getD` default stands for
the unreachable `False`-sentinel branch.) -/
def createPlayer (w : Wheel) (cfg : SimConfig) : PlayerState :=
  match cfg.playerClass with
  | .passenger57 =>
    { strategy := .passenger57, stake := (cfg.initStake : ℚ),
      rounds := cfg.initDuration, lossCount := 0, wager := 0,
      black := (w.getOutcome "Black").getD ⟨"Black", 1⟩ }
  | .martingale =>
    { strategy := .martingale, stake := (cfg.initStake : ℚ),
      rounds := cfg.initDuration, lossCount := 0, wager := 10,
      black := ⟨"", 0⟩ }

/-- Model of `RouletteSimulator.session()`: run the cycle loop (with its
variant `rounds.toNat` as fuel), then replace the player with a freshly
created one before returning the recorded stakes. -/
def session (w : Wheel) (cfg : SimConfig) (glob inj : ℕ → ℕ)
    (p : PlayerState) (t : Table) (g i : ℕ) :
    List ℤ × PlayerState × Table × ℕ × ℕ :=
  let r := sessionLoop w glob inj p.rounds.toNat p t g i
  (r.1, createPlayer w cfg, r.2.2.1, r.2.2.2.1, r.2.2.2.2)

/-- Python `max(xs)` on a list of ints: `none` models the `ValueError`
raised on an empty sequence. -/
def listMax : List ℤ → Option ℤ
  | [] => none
  | x :: xs => some (xs.foldl max x)

/-- The `for sample in range(self.samples)` loop of
`RouletteSimulator.gather()`: run a session, append its length to
`durations` and its `max` to `maxima`; an empty session makes `max(session)`
raise `ValueError`, aborting the whole `gather` (modelled by `none`). -/
def gatherLoop (w : Wheel) (cfg : SimConfig) (glob inj : ℕ → ℕ) :
    ℕ → PlayerState → Table → ℕ → ℕ → List ℕ → List ℤ →
    Option (List ℕ × List ℤ)
  | 0, _, _, _, _, ds, ms => some (ds, ms)
  | n + 1, p, t, g, i, ds, ms =>
    let r := session w cfg glob inj p t g i
    match listMax r.1 with
    | none => none
    | some m =>
      gatherLoop w cfg glob inj n r.2.1 r.2.2.1 r.2.2.2.1 r.2.2.2.2
        (ds ++ [r.1.length]) (ms ++ [m])

/-- Model of a whole `RouletteSimulator(configurations, player_class)` run
followed by `gather()`: build the wheel and table, create the initial
player, and run `samples` sessions starting from empty `durations`/`maxima`.
`glob` is the process-global random stream, `inj` the wheel's source. -/
def gather (cfg : SimConfig) (glob inj : ℕ → ℕ) : Option (List ℕ × List ℤ) :=
  let w := buildWheel
  let t : Table := { min := cfg.tableMin, max := cfg.tableMax, bets := [] }
  gatherLoop w cfg glob inj cfg.samples (createPlayer w cfg) t 0 0 [] []

/-! ### Support lemmas -/

theorem isValid_iff (t : Table) (b : Bet) :
    t.isValid b = true ↔
      t.min ≤ b.amount ∧ b.amount ≤ t.max ∧ betTotal t.bets + b.amount ≤ t.max := by
  simp only [Table.isValid]
  split
  · rename_i hcond
    simp only [Bool.false_eq_true, false_iff]
    rintro ⟨h1, h2, _⟩
    exact hcond ⟨h2, h1⟩
  · rename_i hcond
    rw [not_not] at hcond
    simp only [decide_eq_true_eq]
    exact ⟨fun h3 => ⟨hcond.2, hcond.1, h3⟩, fun h => h.2.2⟩

theorem betTotal_append (bets : List Bet) (b : Bet) :
    betTotal (bets ++ [b]) = betTotal bets + b.amount := by
  simp [betTotal, List.foldl_append]

theorem placeBet_error (t : Table) (b : Bet) (h : t.isValid b = false) :
    t.placeBet b = .error () := by
  simp [Table.placeBet, h]

theorem placeBet_ok (t : Table) (b : Bet) (h : t.isValid b = true) :
    t.placeBet b = .ok { t with bets := t.bets ++ [b] } := by
  simp [Table.placeBet, h]

theorem applyOp_inv (t : Table) (op : TableOp) (hmax : 0 ≤ t.max)
    (hinv : tableInv t) :
    tableInv (applyOp t op) ∧ (applyOp t op).min = t.min ∧
      (applyOp t op).max = t.max := by
  cases op with
  | clear =>
    refine ⟨⟨?_, ?_⟩, rfl, rfl⟩
    · simpa [applyOp, Table.clear, betTotal] using hmax
    · intro b2 hb2
      simp [applyOp, Table.clear] at hb2
  | place b =>
    cases hv : t.isValid b with
    | false => simp [applyOp, placeBet_error t b hv, hinv]
    | true =>
      have hb := (isValid_iff t b).mp hv
      simp only [applyOp, placeBet_ok t b hv]
      refine ⟨⟨?_, ?_⟩, by simp, by simp⟩
      · rw [betTotal_append]
        exact hb.2.2
      · intro b2 hb2
        rcases List.mem_append.mp hb2 with h2 | h2
        · exact hinv.2 b2 h2
        · rcases List.mem_singleton.mp h2 with rfl
          exact ⟨hb.1, hb.2.1⟩

theorem applyOps_inv (ops : List TableOp) :
    ∀ t : Table, 0 ≤ t.max → tableInv t → tableInv (applyOps t ops) := by
  induction ops with
  | nil => intro t _ h; exact h
  | cons op ops ih =>
    intro t hmax hinv
    have h := applyOp_inv t op hmax hinv
    have h2 := ih (applyOp t op) (h.2.2 ▸ hmax) h.1
    simpa [applyOps, List.foldl_cons] using h2

theorem playerLose_preserves (p : PlayerState) (b : Bet) :
    (playerLose p b).strategy = p.strategy ∧ (playerLose p b).wager = p.wager := by
  cases h : p.strategy <;> simp [playerLose, h]

theorem foldl_playerLose_mart (bs : List Bet) :
    ∀ p : PlayerState, p.strategy = .martingale →
      (bs.foldl playerLose p).strategy = .martingale ∧
      (bs.foldl playerLose p).wager = p.wager ∧
      (bs.foldl playerLose p).lossCount = p.lossCount + bs.length := by
  induction bs with
  | nil => intro p h; simp [h]
  | cons b bs ih =>
    intro p h
    have h1 : playerLose p b = { p with lossCount := p.lossCount + 1 } := by
      simp [playerLose, h]
    have h2 := ih { p with lossCount := p.lossCount + 1 } (by simpa using h)
    simp only [List.foldl_cons, h1, List.length_cons]
    refine ⟨h2.1, h2.2.1, ?_⟩
    rw [h2.2.2]
    simp
    omega

theorem sessionLoop_length : ∀ (fuel : ℕ) (w : Wheel) (glob inj : ℕ → ℕ)
    (p : PlayerState) (t : Table) (g i : ℕ),
    (sessionLoop w glob inj fuel p t g i).1.length ≤ p.rounds.toNat := by
  intro fuel
  induction fuel with
  | zero =>
    intro w glob inj p t g i
    simp [sessionLoop]
  | succ n ih =>
    intro w glob inj p t g i
    simp only [sessionLoop]
    cases hc : (canContinue w t p glob g).1 with
    | false => simp
    | true =>
      simp only [if_true]
      have hpos := canContinue_rounds_pos w t p glob g hc
      have hr := cycle_rounds w glob inj p t (canContinue w t p glob g).2 i
      have hrec := ih w glob inj
        (cycle w glob inj p t (canContinue w t p glob g).2 i).1
        (cycle w glob inj p t (canContinue w t p glob g).2 i).2.1
        (cycle w glob inj p t (canContinue w t p glob g).2 i).2.2.1
        (cycle w glob inj p t (canContinue w t p glob g).2 i).2.2.2
      rw [hr] at hrec
      simp only [List.length_cons]
      omega

theorem cycle_table (w : Wheel) (glob inj : ℕ → ℕ) (p : PlayerState)
    (t : Table) (g i : ℕ) :
    (cycle w glob inj p t g i).2.1 = ⟨t.min, t.max, []⟩ := by
  simp only [cycle, playerPlaceBet, Table.clear]
  split <;> rfl

theorem sessionLoop_table : ∀ (fuel : ℕ) (w : Wheel) (glob inj : ℕ → ℕ)
    (p : PlayerState) (t : Table) (g i : ℕ),
    t.bets = [] → (sessionLoop w glob inj fuel p t g i).2.2.1 = t := by
  intro fuel
  induction fuel with
  | zero =>
    intro w glob inj p t g i ht
    rfl
  | succ n ih =>
    intro w glob inj p t g i ht
    have hteta : t = ⟨t.min, t.max, []⟩ := by
      cases t
      simp_all
    simp only [sessionLoop]
    cases hc : (canContinue w t p glob g).1 with
    | false => simp
    | true =>
      simp only [if_true]
      have hct := cycle_table w glob inj p t (canContinue w t p glob g).2 i
      have hrec := ih w glob inj
        (cycle w glob inj p t (canContinue w t p glob g).2 i).1
        (cycle w glob inj p t (canContinue w t p glob g).2 i).2.1
        (cycle w glob inj p t (canContinue w t p glob g).2 i).2.2.1
        (cycle w glob inj p t (canContinue w t p glob g).2 i).2.2.2
        (by rw [hct])
      rw [hrec, hct, ← hteta]

theorem sessionLoop_nonnil (fuel : ℕ) (w : Wheel) (glob inj : ℕ → ℕ)
    (p : PlayerState) (t : Table) (g i : ℕ) (hf : 0 < fuel)
    (h : (canContinue w t p glob g).1 = true) :
    (sessionLoop w glob inj fuel p t g i).1 ≠ [] := by
  cases fuel with
  | zero => omega
  | succ n => simp [sessionLoop, h]

theorem listMax_of_nonnil (l : List ℤ) (h : l ≠ []) : ∃ m, listMax l = some m := by
  cases l with
  | nil => exact absurd rfl h
  | cons x xs => exact ⟨xs.foldl max x, rfl⟩

/-- First `playing()` check of a session for a freshly created `Martingale`
player: the bet amount is the base wager `10 * 2 ** 0`, independent of the
random outcome draw, so the check succeeds whenever the duration is positive
and the base wager is affordable and within the (empty) table's limits. -/
theorem canContinue_fresh_mart (w : Wheel) (t : Table) (p : PlayerState)
    (glob : ℕ → ℕ) (g : ℕ) (hs : p.strategy = .martingale)
    (hlc : p.lossCount = 0) (hw : p.wager = 10) (hst : (10 : ℚ) ≤ p.stake)
    (hr : 0 < p.rounds) (ht : t.bets = []) (hmin : t.min ≤ 10)
    (hmax : (10 : ℤ) ≤ t.max) :
    (canContinue w t p glob g).1 = true := by
  have hbet : (makeBet w t p glob g).1 =
      ⟨10, (w.getRandomOutcome glob g).1⟩ := by
    simp [makeBet, hs, hlc, hw]
  simp only [canContinue, hbet, Bool.and_eq_true, decide_eq_true_eq]
  refine ⟨hr, ?_⟩
  simp only [canBet, Bool.and_eq_true]
  constructor
  · simp only [Bool.not_eq_true']
    rw [decide_eq_false]
    push_neg
    exact_mod_cast hst
  · rw [isValid_iff]
    dsimp only
    refine ⟨by omega, by omega, ?_⟩
    rw [ht]
    simpa [betTotal] using hmax

theorem session_proj (w : Wheel) (cfg : SimConfig) (glob inj : ℕ → ℕ)
    (p : PlayerState) (t : Table) (g i : ℕ) :
    (session w cfg glob inj p t g i).1 =
      (sessionLoop w glob inj p.rounds.toNat p t g i).1 ∧
    (session w cfg glob inj p t g i).2.1 = createPlayer w cfg ∧
    (session w cfg glob inj p t g i).2.2.1 =
      (sessionLoop w glob inj p.rounds.toNat p t g i).2.2.1 ∧
    (session w cfg glob inj p t g i).2.2.2.1 =
      (sessionLoop w glob inj p.rounds.toNat p t g i).2.2.2.1 ∧
    (session w cfg glob inj p t g i).2.2.2.2 =
      (sessionLoop w glob inj p.rounds.toNat p t g i).2.2.2.2 :=
  ⟨rfl, rfl, rfl, rfl, rfl⟩

theorem gatherLoop_succ_of_some (w : Wheel) (cfg : SimConfig)
    (glob inj : ℕ → ℕ) (n : ℕ) (p : PlayerState) (t : Table) (g i : ℕ)
    (ds : List ℕ) (ms : List ℤ) (m : ℤ)
    (hm : listMax (session w cfg glob inj p t g i).1 = some m) :
    gatherLoop w cfg glob inj (n + 1) p t g i ds ms =
      gatherLoop w cfg glob inj n (session w cfg glob inj p t g i).2.1
        (session w cfg glob inj p t g i).2.2.1
        (session w cfg glob inj p t g i).2.2.2.1
        (session w cfg glob inj p t g i).2.2.2.2
        (ds ++ [(session w cfg glob inj p t g i).1.length]) (ms ++ [m]) := by
  simp only [gatherLoop]
  split
  · rename_i heq
    rw [heq] at hm
    exact absurd hm (by simp)
  · rename_i m2 heq
    rw [heq] at hm
    cases hm
    rfl

theorem gatherLoop_lengths (cfg : SimConfig)
    (hclass : cfg.playerClass = .martingale) (h1 : cfg.tableMin ≤ 10)
    (h2 : (10 : ℤ) ≤ cfg.tableMax) (h3 : (10 : ℤ) ≤ cfg.initStake)
    (h4 : 1 ≤ cfg.initDuration) :
    ∀ (n : ℕ) (w : Wheel) (glob inj : ℕ → ℕ) (t : Table) (g i : ℕ)
      (ds : List ℕ) (ms : List ℤ),
      t.min = cfg.tableMin → t.max = cfg.tableMax → t.bets = [] →
      ∃ ds2 ms2,
        gatherLoop w cfg glob inj n (createPlayer w cfg) t g i ds ms =
          some (ds ++ ds2, ms ++ ms2) ∧ ds2.length = n ∧ ms2.length = n := by
  intro n
  induction n with
  | zero =>
    intro w glob inj t g i ds ms _ _ _
    exact ⟨[], [], by simp [gatherLoop], rfl, rfl⟩
  | succ n ih =>
    intro w glob inj t g i ds ms htmin htmax htbets
    have hp : createPlayer w cfg =
        { strategy := .martingale, stake := (cfg.initStake : ℚ),
          rounds := cfg.initDuration, lossCount := 0, wager := 10,
          black := ⟨"", 0⟩ } := by
      simp [createPlayer, hclass]
    have hcont : (canContinue w t (createPlayer w cfg) glob g).1 = true := by
      apply canContinue_fresh_mart w t (createPlayer w cfg) glob g
      · rw [hp]
      · rw [hp]
      · rw [hp]
      · rw [hp]
        dsimp only
        exact_mod_cast h3
      · rw [hp]
        dsimp only
        omega
      · exact htbets
      · omega
      · omega
    have hfuel : 0 < (createPlayer w cfg).rounds.toNat := by
      rw [hp]
      dsimp only
      omega
    obtain ⟨m, hm⟩ := listMax_of_nonnil _
      (sessionLoop_nonnil (createPlayer w cfg).rounds.toNat w glob inj
        (createPlayer w cfg) t g i hfuel hcont)
    have htab : (sessionLoop w glob inj (createPlayer w cfg).rounds.toNat
        (createPlayer w cfg) t g i).2.2.1 = t :=
      sessionLoop_table (createPlayer w cfg).rounds.toNat w glob inj
        (createPlayer w cfg) t g i htbets
    have hproj := session_proj w cfg glob inj (createPlayer w cfg) t g i
    have hm2 : listMax (session w cfg glob inj (createPlayer w cfg) t g i).1 =
        some m := by rw [hproj.1, hm]
    obtain ⟨ds2, ms2, hrec, hd2, hl2⟩ := ih w glob inj t
      (sessionLoop w glob inj (createPlayer w cfg).rounds.toNat
        (createPlayer w cfg) t g i).2.2.2.1
      (sessionLoop w glob inj (createPlayer w cfg).rounds.toNat
        (createPlayer w cfg) t g i).2.2.2.2
      (ds ++ [(sessionLoop w glob inj (createPlayer w cfg).rounds.toNat
        (createPlayer w cfg) t g i).1.length])
      (ms ++ [m]) htmin htmax htbets
    refine ⟨(sessionLoop w glob inj (createPlayer w cfg).rounds.toNat
        (createPlayer w cfg) t g i).1.length :: ds2,
      m :: ms2, ?_, by simp [hd2], by simp [hl2]⟩
    rw [gatherLoop_succ_of_some w cfg glob inj n (createPlayer w cfg) t g i
      ds ms m hm2]
    rw [hproj.1, hproj.2.1, hproj.2.2.1, hproj.2.2.2.1, hproj.2.2.2.2]
    rw [htab, hrec]
    simp

theorem lookup_append_of_none {β : Type} (k : String) (ys : List (String × β)) :
    ∀ xs : List (String × β), xs.lookup k = none →
      (xs ++ ys).lookup k = ys.lookup k := by
  intro xs
  induction xs with
  | nil => intro _; rfl
  | cons x xs ih =>
    intro h
    rcases x with ⟨a, v⟩
    rcases hk : (k == a) with _ | _
    · simp only [List.lookup, hk] at h ⊢
      exact ih h
    · simp [List.lookup, hk] at h

/-! ### Claims -/

/-- C3 (counterexample): with `init_duration = 0` the first session records no
stakes, `max(session)` raises `ValueError`, and `gather()` aborts instead of
producing sequences of length `samples = 1` — refuting the claim that
`gather` completes for every configuration. -/
theorem c3_counterexample :
    gather ⟨5, 500, 0, 100, 1, .martingale⟩ (fun _ => 0) (fun _ => 0) = none := by
  decide

/-- C3 (amended): for every pair of random streams and every configuration
using the `Martingale` strategy whose base wager 10 is affordable
(`10 ≤ init_stake`), within the table limits (`min ≤ 10 ≤ max`), and with
`init_duration ≥ 1` — so that every session runs at least one cycle —
`gather()` completes and leaves `durations` and `maxima` as sequences each of
length exactly `samples`, in session order. -/
theorem c3_gather_lengths (cfg : SimConfig) (glob inj : ℕ → ℕ)
    (hclass : cfg.playerClass = .martingale) (h1 : cfg.tableMin ≤ 10)
    (h2 : (10 : ℤ) ≤ cfg.tableMax) (h3 : (10 : ℤ) ≤ cfg.initStake)
    (h4 : 1 ≤ cfg.initDuration) :
    ∃ ds ms, gather cfg glob inj = some (ds, ms) ∧
      ds.length = cfg.samples ∧ ms.length = cfg.samples := by
  obtain ⟨ds2, ms2, hrun, hd, hm⟩ :=
    gatherLoop_lengths cfg hclass h1 h2 h3 h4 cfg.samples buildWheel glob inj
      ⟨cfg.tableMin, cfg.tableMax, []⟩ 0 0 [] [] rfl rfl rfl
  exact ⟨ds2, ms2, by simpa [gather] using hrun, hd, hm⟩

/-- C3 (witness): a concrete configuration satisfying the amended claim's
hypotheses, with 3 samples. -/
theorem c3_witness :
    ∃ ds ms,
      gather ⟨5, 500, 2, 100, 3, .martingale⟩ (fun _ => 0) (fun _ => 0) =
        some (ds, ms) ∧ ds.length = 3 ∧ ms.length = 3 :=
  c3_gather_lengths ⟨5, 500, 2, 100, 3, .martingale⟩ (fun _ => 0) (fun _ => 0)
    rfl (by decide) (by decide) (by decide) (by decide)

/-- C4: on a table with limits `min ≤ max`, `is_valid(bet)` returns true
exactly when `min ≤ amount ≤ max` and the running total of placed amounts
plus the new amount stays within `max`. -/
theorem c4_is_valid_iff (tmin tmax : ℤ) (bets : List Bet) (b : Bet)
    (hle : tmin ≤ tmax) :
    Table.isValid ⟨tmin, tmax, bets⟩ b = true ↔
      tmin ≤ b.amount ∧ b.amount ≤ tmax ∧ betTotal bets + b.amount ≤ tmax :=
  isValid_iff ⟨tmin, tmax, bets⟩ b

/-- C4 (witness): with min 5, max 500 and a running total of 480, a bet of
20 is accepted (500 ≤ 500) and a bet of 30 is rejected (510 > 500). -/
theorem c4_witness :
    Table.isValid ⟨5, 500, [⟨480, ⟨"Red", 1⟩⟩]⟩ ⟨20, ⟨"Red", 1⟩⟩ = true ∧
    Table.isValid ⟨5, 500, [⟨480, ⟨"Red", 1⟩⟩]⟩ ⟨30, ⟨"Red", 1⟩⟩ = false := by
  constructor
  · exact (c4_is_valid_iff 5 500 [⟨480, ⟨"Red", 1⟩⟩] ⟨20, ⟨"Red", 1⟩⟩
      (by decide)).mpr (by decide)
  · have h := c4_is_valid_iff 5 500 [⟨480, ⟨"Red", 1⟩⟩] ⟨30, ⟨"Red", 1⟩⟩
      (by decide)
    revert h
    decide

/-- C5 (counterexample): the claim as stated fails for a table with
`min = -2 ≤ max = -1`: already the empty bet list violates the claimed
invariant, since the sum of placed amounts is 0 > max. -/
theorem c5_counterexample :
    (-2 : ℤ) ≤ -1 ∧ ¬ tableInv (applyOps ⟨-2, -1, []⟩ []) := by
  decide

/-- C5 (amended): on a table with `min ≤ max` and `0 ≤ max`, every sequence
of `place_bet`/`clear` operations from the empty bet list preserves the
invariant (sum of placed amounts ≤ max, every placed amount in [min, max]);
moreover an invalid `place_bet` raises `InvalidBetError` leaving the bet
list unchanged, and a valid one appends the bet at the end. -/
theorem c5_table_invariant (tmin tmax : ℤ) (ops : List TableOp)
    (hle : tmin ≤ tmax) (hmax : 0 ≤ tmax) :
    tableInv (applyOps ⟨tmin, tmax, []⟩ ops) ∧
    (∀ (t : Table) (b : Bet), t.isValid b = false →
      t.placeBet b = .error () ∧ applyOp t (.place b) = t) ∧
    (∀ (t : Table) (b : Bet), t.isValid b = true →
      t.placeBet b = .ok { t with bets := t.bets ++ [b] }) := by
  refine ⟨?_, ?_, ?_⟩
  · apply applyOps_inv ops ⟨tmin, tmax, []⟩ hmax
    constructor
    · simpa [betTotal] using hmax
    · intro b hb
      simp at hb
  · intro t b h
    exact ⟨placeBet_error t b h, by simp [applyOp, placeBet_error t b h]⟩
  · intro t b h
    exact placeBet_ok t b h

/-- C5 (witness): a concrete operation sequence — a valid bet, a rejected
over-limit bet, a clear, and another valid bet — preserves the invariant on
a table with limits 5/500. -/
theorem c5_witness :
    tableInv (applyOps ⟨5, 500, []⟩
      [.place ⟨10, ⟨"Red", 1⟩⟩, .place ⟨600, ⟨"Red", 1⟩⟩, .clear,
        .place ⟨20, ⟨"Red", 1⟩⟩]) :=
  (c5_table_invariant 5 500
    [.place ⟨10, ⟨"Red", 1⟩⟩, .place ⟨600, ⟨"Red", 1⟩⟩, .clear,
      .place ⟨20, ⟨"Red", 1⟩⟩] (by decide) (by decide)).1

/-- C6: for the Martingale player, every bet produced by `make_bet` has
amount exactly `wager * 2 ** loss_count`; `win` resets `loss_count` to 0 and
`lose` increments it by 1 with no upper cap, so after `k` consecutive losses
from a reset counter the next wager is `wager * 2 ** k`. -/
theorem c6_martingale_doubling :
    (∀ (w : Wheel) (t : Table) (p : PlayerState) (glob : ℕ → ℕ) (g : ℕ),
      p.strategy = .martingale →
      (makeBet w t p glob g).1.amount = p.wager * 2 ^ p.lossCount) ∧
    (∀ (p : PlayerState) (b : Bet), p.strategy = .martingale →
      (playerWin p b).lossCount = 0 ∧
      (playerLose p b).lossCount = p.lossCount + 1) ∧
    (∀ (w : Wheel) (t : Table) (p : PlayerState) (glob : ℕ → ℕ) (g : ℕ)
      (bs : List Bet), p.strategy = .martingale → p.lossCount = 0 →
      (makeBet w t (bs.foldl playerLose p) glob g).1.amount =
        p.wager * 2 ^ bs.length) := by
  have hamount : ∀ (w : Wheel) (t : Table) (p : PlayerState) (glob : ℕ → ℕ)
      (g : ℕ), p.strategy = .martingale →
      (makeBet w t p glob g).1.amount = p.wager * 2 ^ p.lossCount := by
    intro w t p glob g h
    simp [makeBet, h]
  refine ⟨hamount, ?_, ?_⟩
  · intro p b h
    constructor
    · simp [playerWin, h]
    · simp [playerLose, h]
  · intro w t p glob g bs h h0
    have hf := foldl_playerLose_mart bs p h
    rw [hamount w t (bs.foldl playerLose p) glob g hf.1, hf.2.1, hf.2.2, h0]
    simp

/-- C6 (witness): concrete Martingale states — with `loss_count = 3` and
wager 10 the bet amount is `10 * 2 ^ 3`; a win resets the counter, a loss
increments it; two consecutive losses from a reset counter give `10 * 2 ^ 2`. -/
theorem c6_witness :
    (makeBet ⟨[], []⟩ ⟨5, 500, []⟩ ⟨.martingale, 100, 5, 3, 10, ⟨"", 0⟩⟩
      (fun _ => 0) 0).1.amount = 10 * 2 ^ 3 ∧
    (playerWin ⟨.martingale, 100, 5, 3, 10, ⟨"", 0⟩⟩
      ⟨10, ⟨"Red", 1⟩⟩).lossCount = 0 ∧
    (playerLose ⟨.martingale, 100, 5, 3, 10, ⟨"", 0⟩⟩
      ⟨10, ⟨"Red", 1⟩⟩).lossCount = 3 + 1 ∧
    (makeBet ⟨[], []⟩ ⟨5, 500, []⟩
      ([⟨10, ⟨"Red", 1⟩⟩, ⟨20, ⟨"Red", 1⟩⟩].foldl playerLose
        ⟨.martingale, 100, 5, 0, 10, ⟨"", 0⟩⟩) (fun _ => 0) 0).1.amount =
      10 * 2 ^ 2 :=
  ⟨c6_martingale_doubling.1 ⟨[], []⟩ ⟨5, 500, []⟩ _ (fun _ => 0) 0 rfl,
    (c6_martingale_doubling.2.1 _ ⟨10, ⟨"Red", 1⟩⟩ rfl).1,
    (c6_martingale_doubling.2.1 _ ⟨10, ⟨"Red", 1⟩⟩ rfl).2,
    c6_martingale_doubling.2.2 ⟨[], []⟩ ⟨5, 500, []⟩ _ (fun _ => 0) 0
      [⟨10, ⟨"Red", 1⟩⟩, ⟨20, ⟨"Red", 1⟩⟩] rfl rfl⟩

/-- C7: every session terminates — `place_bet` decrements `rounds` by
exactly 1 in every cycle and the loop guard requires `rounds > 0`, so a
session records at most its initial `rounds` count of cycles. -/
theorem c7_session_terminates :
    (∀ (w : Wheel) (cfg : SimConfig) (glob inj : ℕ → ℕ) (p : PlayerState)
      (t : Table) (g i : ℕ),
      (session w cfg glob inj p t g i).1.length ≤ p.rounds.toNat) ∧
    (∀ (w : Wheel) (glob : ℕ → ℕ) (p : PlayerState) (t : Table) (g : ℕ),
      (playerPlaceBet w glob p t g).1.rounds = p.rounds - 1) := by
  constructor
  · intro w cfg glob inj p t g i
    exact sessionLoop_length p.rounds.toNat w glob inj p t g i
  · intro w glob p t g
    simp only [playerPlaceBet]
    split <;> rfl

/-- C8 (counterexample): `Outcome('X', Fraction(-1))` constructs
successfully even though -1 is a negative rational — refuting the claim
that construction fails for every negative odds value. -/
theorem c8_counterexample :
    outcomeInit "X" (.frac (-1)) = .ok ⟨"X", -1⟩ ∧ (-1 : ℚ) < 0 :=
  ⟨rfl, by norm_num⟩

/-- C8 (amended): `Outcome(name, odds)` raises `InvalidObjectError` exactly
when `odds` is not a `Fraction`; every `Fraction`, of any sign, is accepted
unchanged. -/
theorem c8_outcome_init (name : String) (v : PyVal) :
    ((∃ oc, outcomeInit name v = .ok oc) ↔ ∃ q, v = .frac q) ∧
    (∀ q : ℚ, outcomeInit name (.frac q) = .ok ⟨name, q⟩) := by
  constructor
  · cases v <;> simp [outcomeInit]
  · intro q
    rfl

/-- C9: when `name` is not yet cached, `make(name, r1)` constructs and
caches the outcome with odds `r1`, and a subsequent `make(name, r2)`
returns the identical cached instance — odds still `r1`, the cache
unchanged (first write wins). -/
theorem c9_factory_first_write (f : OutcomeFactory) (name : String)
    (r1 r2 : ℚ) (h : f.outcomes.lookup name = none) :
    (f.make name r1).1 = ⟨name, r1⟩ ∧
    ((f.make name r1).2.make name r2).1 = (f.make name r1).1 ∧
    ((f.make name r1).2.make name r2).2 = (f.make name r1).2 := by
  have h1 : f.make name r1 = (⟨name, r1⟩, ⟨f.outcomes ++ [(name, r1)]⟩) := by
    simp [OutcomeFactory.make, h]
  have h2 : (f.outcomes ++ [(name, r1)]).lookup name = some r1 := by
    rw [lookup_append_of_none name _ f.outcomes h]
    simp [List.lookup]
  rw [h1]
  simp [OutcomeFactory.make, h2]

/-- C9 (witness): on a fresh factory, `make("X", 2)` then `make("X", 3)`
returns the same outcome with odds 2 both times and leaves the cache as
after the first call. -/
theorem c9_witness :
    ((⟨[]⟩ : OutcomeFactory).make "X" 2).1 = ⟨"X", 2⟩ ∧
    (((⟨[]⟩ : OutcomeFactory).make "X" 2).2.make "X" 3).1 =
      ((⟨[]⟩ : OutcomeFactory).make "X" 2).1 ∧
    (((⟨[]⟩ : OutcomeFactory).make "X" 2).2.make "X" 3).2 =
      ((⟨[]⟩ : OutcomeFactory).make "X" 2).2 :=
  c9_factory_first_write ⟨[]⟩ "X" 2 3 rfl

/-- C10: entering `place_bet` with `rounds == 1` decrements `rounds` to 0,
so the re-check of `can_continue` fails and the bet is silently dropped:
the table is untouched and the stake unchanged. -/
theorem c10_last_round_drops_bet (w : Wheel) (glob : ℕ → ℕ)
    (p : PlayerState) (t : Table) (g : ℕ) (h : p.rounds = 1) :
    (playerPlaceBet w glob p t g).1.rounds = 0 ∧
    (playerPlaceBet w glob p t g).1.stake = p.stake ∧
    (playerPlaceBet w glob p t g).2.1 = t := by
  have h0 : ({ p with rounds := p.rounds - 1 } : PlayerState).rounds ≤ 0 := by
    simp [h]
  simp only [playerPlaceBet]
  rw [canContinue_false_of_nonpos w t { p with rounds := p.rounds - 1 } glob _ h0]
  simp [h]

/-- C10 (witness): a concrete Martingale player with `rounds = 1` forwards
no bet and keeps its stake. -/
theorem c10_witness :
    (playerPlaceBet ⟨[], []⟩ (fun _ => 0)
      ⟨.martingale, 100, 1, 0, 10, ⟨"", 0⟩⟩ ⟨5, 500, []⟩ 0).1.rounds = 0 ∧
    (playerPlaceBet ⟨[], []⟩ (fun _ => 0)
      ⟨.martingale, 100, 1, 0, 10, ⟨"", 0⟩⟩ ⟨5, 500, []⟩ 0).1.stake = 100 ∧
    (playerPlaceBet ⟨[], []⟩ (fun _ => 0)
      ⟨.martingale, 100, 1, 0, 10, ⟨"", 0⟩⟩ ⟨5, 500, []⟩ 0).2.1 =
      ⟨5, 500, []⟩ :=
  c10_last_round_drops_bet ⟨[], []⟩ (fun _ => 0)
    ⟨.martingale, 100, 1, 0, 10, ⟨"", 0⟩⟩ ⟨5, 500, []⟩ 0 rfl

/-- C1: after `BinBuilder` populates a fresh wheel, `'Red'` is attached to
exactly the 17 bins of the code's hard-coded list — not 18: bin 27 (red in
the standard membership set) instead carries `'Black'`, which lands on 19
bins.  The code's list omits 27. -/
theorem c1_red_black_membership :
    (buildWheel.bins.filter (fun b => decide ("Red" ∈ b.outcomes))).map
        Bin.number = codeRedNumbers ∧
    (buildWheel.bins.filter (fun b => decide ("Black" ∈ b.outcomes))).map
        Bin.number =
      [2, 4, 6, 8, 10, 11, 13, 15, 17, 20, 22, 24, 26, 27, 28, 29, 31, 33, 35] ∧
    codeRedNumbers.length = 17 ∧ (27 : ℕ) ∉ codeRedNumbers := by
  refine ⟨by decide, by decide, by decide, by decide⟩

/-- C2: two `gather()` runs with the identical injected wheel source and
identical configuration but different process-global random streams produce
different results — `Passenger57.make_bet` draws its amount from the global
`random` module (`random.randint`), not from the injected source, so with
table limits 5/20 and stake 100 one stream draws amount 5 (a completed
session of one cycle) while the other draws amount 35 > max (an empty
session whose `max()` raises `ValueError`).  Randomness thus enters the
engine outside `Wheel.next`, and the simulation is not a deterministic
function of the injected source.  (`Wheel.get_random_outcome`, used by
Martingale, equally draws from the global module.) -/
theorem c2_global_randomness_breaks_reproducibility :
    gather ⟨5, 20, 1, 100, 1, .passenger57⟩ (fun _ => 0) (fun _ => 1) ≠
      gather ⟨5, 20, 1, 100, 1, .passenger57⟩ (fun _ => 30) (fun _ => 1) := by
  decide
